import Mathlib

/-!
Shallow embedding of the TRIADBLUE/github-proxy server (src/index.js, plus the
earlier revision src/unnamed/part_000) and proofs about the claims of its
specification.

Modelling conventions:
* JavaScript strings are Lean `String`; the JS code-unit comparison used by
  `Array.prototype.sort((a, b) => a[0].localeCompare(b[0]))` is modelled by the
  explicit lexicographic Bool-valued comparison `strLt` and the stable
  insertion sort `sortByKey` (JS sort is stable; the identifiers sorted here
  are plain ASCII, where the default-locale comparison agrees with code-unit
  order).
* A JS value that is a string or `undefined` is `Option String`; the JS
  truthiness test on such a value is `truthy` and the short-circuiting
  JS `||` is `jsOr` / `jsOrD`.
* A JS `Map` is an insertion-ordered association list `List (String × α)`;
  `Map.set` is `assocSet` (update in place if the key exists, else append),
  `Map.has` is `assocHas`, iteration order is list order, and
  `[...map.keys()]` is `List.map Prod.fst`.
* `Date.now()` values and `Math.random().toString(36).slice(2, 10)` suffixes
  are explicit inputs (`now`, `rand`) of the operations that consume them, so
  every nondeterministic source in the code is an argument of its embedding.
* Event payloads are opaque to the store (never inspected), so they are
  modelled by an abstract numeric tag.
* Timestamps in the session registry are `Int` (JS number subtraction).
-/

namespace GithubProxy

/-! ## JavaScript value helpers -/

/-- Truthiness of a JS string-or-undefined value: `undefined` and the empty
string are falsy. -/
def truthy : Option String → Bool
  | some s => s != ""
  | none => false

/-- JS short-circuit `a || b` on string-or-undefined values. -/
def jsOr : Option String → Option String → Option String
  | some s, b => if s = "" then b else some s
  | none, b => b

/-- JS `a || d` where the fallback `d` is a plain string. -/
def jsOrD : Option String → String → String
  | some s, d => if s = "" then d else s
  | none, d => d

/-- Code-unit lexicographic comparison of character lists. -/
def lexLt : List Char → List Char → Bool
  | [], [] => false
  | [], _ :: _ => true
  | _ :: _, [] => false
  | a :: as, b :: bs => if a < b then true else if b < a then false else lexLt as bs

/-- JS code-unit `<` on strings. -/
def strLt (a b : String) : Bool := lexLt a.data b.data

/-- JS code-unit `<=` on strings (total order: not strictly greater). -/
def strLe (a b : String) : Bool := !(strLt b a)

/-! ## Association lists standing for JS Maps -/

/-- JS `map.has(k)`. -/
def assocHas {α : Type} (l : List (String × α)) (k : String) : Bool :=
  l.any (fun p => p.1 == k)

/-- JS `map.set(k, v)`: update in place when the key is present, otherwise
append at the end (JS Maps keep insertion order). -/
def assocSet {α : Type} (l : List (String × α)) (k : String) (v : α) :
    List (String × α) :=
  if assocHas l k then l.map (fun p => if p.1 == k then (k, v) else p)
  else l ++ [(k, v)]

/-! ## In-memory event store (src/index.js lines 51 to 82) -/

/-- One stored event: its owning stream and its (opaque) message payload. -/
structure EventEntry where
  streamId : String
  message : Nat
  deriving DecidableEq, Repr

/-- The `InMemoryEventStore`: its `events` Map. -/
structure EventStore where
  events : List (String × EventEntry)
  deriving DecidableEq, Repr

/-- Event-identifier generation inside `storeEvent`:
the template string `streamId + "_" + Date.now() + "_" + randomSuffix`. -/
def mkEventId (streamId : String) (now : Nat) (rand : String) : String :=
  streamId ++ "_" ++ toString now ++ "_" ++ rand

/-- `InMemoryEventStore.storeEvent(streamId, message)`: generate the id, set it
in the Map, then, when the Map holds more than 1000 entries, delete the oldest
`size - 1000` keys. Returns the generated id with the new store state. -/
def storeEvent (st : EventStore) (streamId : String) (message : Nat)
    (now : Nat) (rand : String) : String × EventStore :=
  let eventId := mkEventId streamId now rand
  let evs := assocSet st.events eventId ⟨streamId, message⟩
  let evs := if evs.length > 1000 then evs.drop (evs.length - 1000) else evs
  (eventId, ⟨evs⟩)

/-- Stable insertion of one entry into a key-sorted list (entries with a
smaller-or-equal key stay in front). -/
def insertByKey (x : String × EventEntry) :
    List (String × EventEntry) → List (String × EventEntry)
  | [] => [x]
  | y :: ys => if strLe x.1 y.1 then x :: y :: ys else y :: insertByKey x ys

/-- Stable sort by key: the model of
`[...this.events.entries()].sort((a, b) => a[0].localeCompare(b[0]))`. -/
def sortByKey : List (String × EventEntry) → List (String × EventEntry)
  | [] => []
  | x :: xs => insertByKey x (sortByKey xs)

/-- Key order (weak) on stored entries. -/
def keyLe (p q : String × EventEntry) : Prop := strLe p.1 q.1 = true

/-- Key order (strict) on stored entries. -/
def keyLt (p q : String × EventEntry) : Prop := strLt p.1 q.1 = true

/-- The replay loop of `replayEventsAfter`: walk the sorted entries, skip
other streams, flip `foundLast` on the requested id, and from then on emit
`(eventId, message)` through the send callback; the returned list is the
sequence of emissions in order. -/
def replayLoop (streamId lastEventId : String) (foundLast : Bool) :
    List (String × EventEntry) → List (String × Nat)
  | [] => []
  | (eventId, e) :: rest =>
    if e.streamId != streamId then replayLoop streamId lastEventId foundLast rest
    else if eventId == lastEventId then replayLoop streamId lastEventId true rest
    else if foundLast then (eventId, e.message) :: replayLoop streamId lastEventId foundLast rest
    else replayLoop streamId lastEventId foundLast rest

/-- `InMemoryEventStore.replayEventsAfter(lastEventId, { send })`: returns the
pair of the function result (the resolved stream id, or the empty string) and
the list of events emitted through `send`, in emission order. The stream id is
recovered as `lastEventId.split('_')[0]`, i.e. the longest prefix free of
underscores. The store itself is never written by this method. -/
def replayEventsAfter (st : EventStore) (lastEventId : String) :
    String × List (String × Nat) :=
  if lastEventId = "" || !(assocHas st.events lastEventId) then ("", [])
  else
    let streamId : String := String.mk (lastEventId.data.takeWhile (fun c => c != '_'))
    if streamId = "" then ("", [])
    else (streamId, replayLoop streamId lastEventId false (sortByKey st.events))

/-! ## Sequences of storeEvent calls -/

/-- One `storeEvent` call: the stream, the payload tag, and the values the
call observes from `Date.now()` and `Math.random().toString(36).slice(2, 10)`. -/
structure Call where
  streamId : String
  message : Nat
  now : Nat
  rand : String
  deriving DecidableEq, Repr

/-- The identifier a call generates. -/
def callId (c : Call) : String := mkEventId c.streamId c.now c.rand

/-- The Map entry a call stores. -/
def callEntry (c : Call) : String × EventEntry :=
  (callId c, ⟨c.streamId, c.message⟩)

/-- The identifiers generated by a sequence of calls, in call order. -/
def idsOf (cs : List Call) : List String := cs.map callId

/-- Run a sequence of `storeEvent` calls against a starting store. -/
def foldStore (st : EventStore) (cs : List Call) : EventStore :=
  cs.foldl (fun s c => (storeEvent s c.streamId c.message c.now c.rand).2) st

/-- Run a sequence of `storeEvent` calls against the fresh, empty store. -/
def buildStore (cs : List Call) : EventStore := foldStore ⟨[]⟩ cs

/-! ## MCP session registry and routing (src/index.js lines 209 to 337) -/

/-- One registry entry value: the transport/server pair is abstracted to a
transport tag, plus the `createdAt` timestamp taken at insertion. -/
structure SessionEntry where
  transportId : Nat
  createdAt : Int
  deriving DecidableEq, Repr

/-- The `sessions` Map. -/
abbrev Registry := List (String × SessionEntry)

/-- One JSON-RPC message of a request body. -/
structure JsMessage where
  method : String
  deriving DecidableEq, Repr

/-- A parsed request body: a single message, a batch array, or a body with no
usable `method` field. -/
inductive JsBody where
  | one (m : JsMessage)
  | arr (ms : List JsMessage)
  | empty
  deriving DecidableEq, Repr

/-- `isInitializeRequest(body)`: a batch containing an `initialize` message,
or a single message whose method is `initialize`. -/
def isInitializeRequest : JsBody → Bool
  | .arr ms => ms.any (fun m => m.method == "initialize")
  | .one m => m.method == "initialize"
  | .empty => false

/-- `getSessionId(req)`: the `mcp-session-id` header, or else the
`Mcp-Session-Id` header, with JS `||` semantics. -/
def getSessionId (hdr1 hdr2 : Option String) : Option String := jsOr hdr1 hdr2

/-- A structured JSON error response: HTTP status, JSON-RPC error code and
message, and the `Allow` header when one is set. -/
structure ErrorResponse where
  status : Nat
  code : Int
  message : String
  allowHeader : Option String
  deriving DecidableEq, Repr

/-- The observable outcome of an MCP handler. -/
inductive McpResponse where
  | forwarded (sessionId : String)
  | initialized (newSessionId : String)
  | jsonError (e : ErrorResponse)
  deriving DecidableEq, Repr

/-- `handleMcpPost`: reuse a registered session, else initialize a new one
(when no session id is supplied and the body is an initialize request; the
fresh server-generated id `newSid` is registered by `onsessioninitialized`),
else answer 400 with JSON-RPC code -32000. -/
def handleMcpPost (reg : Registry) (hdr1 hdr2 : Option String) (body : JsBody)
    (newSid : String) (now : Int) (tid : Nat) : McpResponse × Registry :=
  let sessionId := getSessionId hdr1 hdr2
  if truthy sessionId && assocHas reg (jsOrD sessionId "") then
    (.forwarded (jsOrD sessionId ""), reg)
  else if !(truthy sessionId) && isInitializeRequest body then
    (.initialized newSid, assocSet reg newSid ⟨tid, now⟩)
  else
    (.jsonError ⟨400, -32000, "Bad request - missing or invalid session", none⟩, reg)

/-- `handleMcpGet`: forward to a registered session, else answer 405 with an
`Allow: POST, HEAD` header and JSON-RPC code -32000. -/
def handleMcpGet (reg : Registry) (hdr1 hdr2 : Option String) :
    McpResponse × Registry :=
  let sessionId := getSessionId hdr1 hdr2
  if truthy sessionId && assocHas reg (jsOrD sessionId "") then
    (.forwarded (jsOrD sessionId ""), reg)
  else
    (.jsonError ⟨405, -32000, "Method not allowed - use POST", some "POST, HEAD"⟩, reg)

/-- `handleMcpDelete`: forward to a registered session, else answer 404 with
JSON-RPC code -32001. -/
def handleMcpDelete (reg : Registry) (hdr1 hdr2 : Option String) :
    McpResponse × Registry :=
  let sessionId := getSessionId hdr1 hdr2
  if truthy sessionId && assocHas reg (jsOrD sessionId "") then
    (.forwarded (jsOrD sessionId ""), reg)
  else
    (.jsonError ⟨404, -32001, "Session not found", none⟩, reg)

/-- The session TTL of the cleanup sweep: `30 * 60 * 1000` milliseconds. -/
def sessionTtlMs : Int := 30 * 60 * 1000

/-- The cadence of the cleanup timer: `setInterval(..., 5 * 60 * 1000)`. -/
def sweepIntervalMs : Int := 5 * 60 * 1000

/-- One primitive effect performed by the cleanup sweep. The sweep in the
source deletes registry entries and logs; a transport teardown would be a
`closeTransport` effect, which the source never performs. -/
inductive SweepAction where
  | deleteSession (id : String)
  | closeTransport (transportId : Nat)
  | log (msg : String)
  deriving DecidableEq, Repr

/-- Whether a sweep effect is a transport teardown. -/
def isCloseAction : SweepAction → Bool
  | .closeTransport _ => true
  | _ => false

/-- The body of the `setInterval` cleanup callback: every session with
`now - createdAt > 30 * 60 * 1000` is deleted from the Map and a cleanup line
is logged; nothing else is done to it. Returns the surviving registry and the
effects performed, in iteration order. -/
def sweepOnce (reg : Registry) (now : Int) : Registry × List SweepAction :=
  (reg.filter (fun p => !(decide (now - p.2.createdAt > sessionTtlMs))),
   (reg.filter (fun p => decide (now - p.2.createdAt > sessionTtlMs))).flatMap
     (fun p => [.deleteSession p.1, .log ("[cleanup] Removed stale session: " ++ p.1)]))

/-! ## Generic /api/github reverse proxy (src/index.js lines 362 to 383) -/

/-- The fixed upstream host. -/
def TARGET : String := "https://consoleblue.triadblue.com"

/-- The parts of an inbound `/api/github/*` request the handler can observe. -/
structure ProxyReq where
  method : String
  originalUrl : String
  queryApiKey : Option String
  headerApiKey : Option String
  body : Option String
  deriving DecidableEq, Repr

/-- The outbound `fetch` request the handler constructs. -/
structure UpstreamReq where
  url : String
  method : String
  xApiKey : String
  contentType : String
  userAgent : String
  body : Option String
  deriving DecidableEq, Repr

/-- The `fetch(url, { method, headers })` call of the proxy handler: the URL is
the fixed target plus the original URL, the method is forwarded, the
`x-api-key` header is `req.query.api_key || req.headers['x-api-key'] || ''`,
content type and user agent are fixed, and no body option is passed. -/
def buildUpstreamReq (r : ProxyReq) : UpstreamReq :=
  { url := TARGET ++ r.originalUrl
    method := r.method
    xApiKey := jsOrD (jsOr r.queryApiKey r.headerApiKey) ""
    contentType := "application/json"
    userAgent := "consoleblue-github-proxy/1.0"
    body := none }

/-- The parts of the upstream response the handler reads. -/
structure UpstreamResp where
  status : Nat
  contentType : Option String
  body : String
  deriving DecidableEq, Repr

/-- The response written back to the caller. -/
structure ClientResp where
  status : Nat
  contentType : String
  body : String
  deriving DecidableEq, Repr

/-- The response-forwarding tail of the proxy handler: status and body are
passed through; the content type is the upstream one, or `application/json`
when the upstream sent none. -/
def forwardResp (u : UpstreamResp) : ClientResp :=
  { status := u.status
    contentType := jsOrD u.contentType "application/json"
    body := u.body }

/-! ## Concrete inputs used by witnesses -/

/-- The JSON-RPC error code carried by a response (0 when not an error). -/
def errCode : McpResponse → Int
  | .jsonError e => e.code
  | _ => 0

/-- A family of `storeEvent` calls on stream `s`, all in the same millisecond,
with pairwise distinct random suffixes (the suffix of call `i` has length `i`,
so the generated identifiers are pairwise distinct). -/
def demoCall (i : Nat) : Call :=
  ⟨"s", i, 0, String.mk (List.replicate i 'a')⟩

/-- The tail of the 1001-call demo sequence. -/
def demoRest : List Call := (List.range 1000).map (fun i => demoCall (i + 1))

/-- A sequence of 1001 `storeEvent` calls with pairwise distinct ids. -/
def demoCalls : List Call := (List.range 1001).map demoCall

/-! ## Association list lemmas -/

/-- Key lookup succeeds exactly when the key occurs in the key list. -/
theorem assocHas_eq_true {α : Type} (l : List (String × α)) (k : String) :
    assocHas l k = true ↔ k ∈ l.map Prod.fst := by
  constructor
  · intro h
    obtain ⟨p, hp, he⟩ := List.any_eq_true.mp h
    exact List.mem_map.mpr ⟨p, hp, beq_iff_eq.mp he⟩
  · intro h
    obtain ⟨p, hp, he⟩ := List.mem_map.mp h
    exact List.any_eq_true.mpr ⟨p, hp, beq_iff_eq.mpr he⟩

/-- Key lookup fails exactly when the key does not occur in the key list. -/
theorem assocHas_eq_false {α : Type} (l : List (String × α)) (k : String) :
    assocHas l k = false ↔ k ∉ l.map Prod.fst := by
  rw [Bool.eq_false_iff, Ne, assocHas_eq_true]

/-- Setting a fresh key appends the binding at the end. -/
theorem assocSet_fresh {α : Type} (l : List (String × α)) (k : String) (v : α)
    (h : k ∉ l.map Prod.fst) : assocSet l k v = l ++ [(k, v)] := by
  have hh : assocHas l k = false := (assocHas_eq_false l k).mpr h
  simp [assocSet, hh]

/-- Setting a key grows the list by at most one binding. -/
theorem assocSet_length_le {α : Type} (l : List (String × α)) (k : String) (v : α) :
    (assocSet l k v).length ≤ l.length + 1 := by
  unfold assocSet
  split
  · simp
  · simp

/-- Every key present after a set was the new key or an old key. -/
theorem mem_keys_assocSet {α : Type} {l : List (String × α)} {k : String} {v : α}
    {x : String} (hx : x ∈ (assocSet l k v).map Prod.fst) :
    x = k ∨ x ∈ l.map Prod.fst := by
  unfold assocSet at hx
  split at hx
  · rw [List.map_map] at hx
    simp only [List.mem_map, Function.comp] at hx
    obtain ⟨p, hp, hpx⟩ := hx
    by_cases h : p.1 = k
    · simp [h] at hpx
      exact Or.inl hpx.symm
    · simp [h] at hpx
      exact Or.inr (hpx ▸ List.mem_map_of_mem Prod.fst hp)
  · rw [List.map_append] at hx
    rcases List.mem_append.mp hx with h | h
    · exact Or.inr h
    · simp at h
      exact Or.inl h

/-! ## Event store shape lemmas -/

/-- The keys of the mapped call entries are the generated identifiers. -/
theorem keys_map_callEntry (l : List Call) :
    (l.map callEntry).map Prod.fst = idsOf l := by
  simp [idsOf, callEntry, List.map_map, Function.comp]

/-- A store step with a fresh identifier and room to spare appends the entry
and evicts nothing. -/
theorem storeEvent_snd_append (st : EventStore) (c : Call)
    (hfresh : callId c ∉ st.events.map Prod.fst)
    (hlen : st.events.length + 1 ≤ 1000) :
    (storeEvent st c.streamId c.message c.now c.rand).2 =
      ⟨st.events ++ [callEntry c]⟩ := by
  have h1 : assocSet st.events (mkEventId c.streamId c.now c.rand)
      ⟨c.streamId, c.message⟩ = st.events ++ [callEntry c] :=
    assocSet_fresh _ _ _ hfresh
  simp only [storeEvent, h1]
  rw [if_neg]
  simp only [List.length_append, List.length_singleton]
  omega

/-- A store step keeps the event list within the 1000-entry bound. -/
theorem storeEvent_length_le (st : EventStore) (sid : String) (msg nw : Nat)
    (rand : String) :
    ((storeEvent st sid msg nw rand).2).events.length ≤ 1000 := by
  simp only [storeEvent]
  have hle : (assocSet st.events (mkEventId sid nw rand) ⟨sid, msg⟩).length ≤
      st.events.length + 1 := assocSet_length_le _ _ _
  split
  · rename_i hgt
    simp only [List.length_drop]
    omega
  · rename_i hng
    omega

/-- Every key present after a store step is the generated id or an old key. -/
theorem mem_keys_storeEvent (st : EventStore) (sid : String) (msg nw : Nat)
    (rand : String) {x : String}
    (hx : x ∈ ((storeEvent st sid msg nw rand).2).events.map Prod.fst) :
    x = mkEventId sid nw rand ∨ x ∈ st.events.map Prod.fst := by
  simp only [storeEvent] at hx
  have h1 : x ∈ (assocSet st.events (mkEventId sid nw rand) ⟨sid, msg⟩).map Prod.fst := by
    revert hx
    split
    · intro hx
      exact List.map_subset _ (List.drop_subset _ _) hx
    · intro hx
      exact hx
  exact mem_keys_assocSet h1

/-- Running calls against a store whose keys and the generated ids are jointly
distinct, with no overflow, appends exactly the call entries in order. -/
theorem foldStore_no_evict (cs : List Call) :
    ∀ st : EventStore,
      (st.events.map Prod.fst ++ idsOf cs).Nodup →
      st.events.length + cs.length ≤ 1000 →
      (foldStore st cs).events = st.events ++ cs.map callEntry := by
  induction cs with
  | nil =>
    intro st _ _
    simp [foldStore]
  | cons c cs ih =>
    intro st hnd hlen
    have hids : idsOf (c :: cs) = callId c :: idsOf cs := by simp [idsOf]
    rw [hids] at hnd
    have hfresh : callId c ∉ st.events.map Prod.fst := by
      intro hmem
      exact (List.nodup_append.mp hnd).2.2 hmem (List.mem_cons_self _ _)
    have hlen1 : st.events.length + 1 ≤ 1000 := by
      simp only [List.length_cons] at hlen
      omega
    have hstep := storeEvent_snd_append st c hfresh hlen1
    have hrun : foldStore st (c :: cs) =
        foldStore ⟨st.events ++ [callEntry c]⟩ cs := by
      simp only [foldStore, List.foldl_cons, hstep]
    rw [hrun, ih ⟨st.events ++ [callEntry c]⟩ ?_ ?_]
    · simp
    · simp only [List.map_append]
      have : (st.events.map Prod.fst ++ [callId c]) ++ idsOf cs =
          st.events.map Prod.fst ++ callId c :: idsOf cs :=
        (List.append_cons _ _ _).symm
      simp only [callEntry, List.map_cons, List.map_nil]
      rw [this]
      exact hnd
    · show (st.events ++ [callEntry c]).length + cs.length ≤ 1000
      have hl2 : (st.events ++ [callEntry c]).length = st.events.length + 1 := by
        simp
      simp only [List.length_cons] at hlen
      omega

/-- With distinct identifiers and at most 1000 calls, the fresh store holds
exactly the call entries in call order. -/
theorem buildStore_no_evict (cs : List Call) (hnd : (idsOf cs).Nodup)
    (hlen : cs.length ≤ 1000) : (buildStore cs).events = cs.map callEntry := by
  have h := foldStore_no_evict cs ⟨[]⟩ (by simpa) (by simpa)
  simpa [buildStore] using h

/-- The store never holds more than 1000 events. -/
theorem buildStore_length_le (cs : List Call) :
    (buildStore cs).events.length ≤ 1000 := by
  suffices h : ∀ st : EventStore, st.events.length ≤ 1000 →
      (foldStore st cs).events.length ≤ 1000 from h ⟨[]⟩ (by simp)
  induction cs with
  | nil =>
    intro st h
    simpa [foldStore] using h
  | cons c cs ih =>
    intro st _
    exact ih ((storeEvent st c.streamId c.message c.now c.rand).2)
      (storeEvent_length_le _ _ _ _ _)

/-- Every key of the built store is one of the generated identifiers. -/
theorem buildStore_keys_subset (cs : List Call) :
    (buildStore cs).events.map Prod.fst ⊆ idsOf cs := by
  suffices h : ∀ st : EventStore, (foldStore st cs).events.map Prod.fst ⊆
      st.events.map Prod.fst ++ idsOf cs by
    intro x hx
    simpa [idsOf] using h ⟨[]⟩ hx
  induction cs with
  | nil =>
    intro st
    simp [foldStore, idsOf]
  | cons c cs ih =>
    intro st x hx
    have hx' := ih ((storeEvent st c.streamId c.message c.now c.rand).2) hx
    rcases List.mem_append.mp hx' with h1 | h2
    · rcases mem_keys_storeEvent st c.streamId c.message c.now c.rand h1 with rfl | h3
      · simp [idsOf, callId]
      · exact List.mem_append.mpr (Or.inl h3)
    · refine List.mem_append.mpr (Or.inr ?_)
      simp only [idsOf, List.map_cons, List.mem_cons]
      exact Or.inr (by simpa [idsOf] using h2)

/-! ## Claim C9: replay with a never-stored identifier -/

/-- C9: for every identifier that no `storeEvent` call generated (and for the
empty identifier), `replayEventsAfter` returns the empty result and emits
nothing through the send callback; the embedding of the method is read-only,
matching the source, which never writes the Map during replay. -/
theorem c9_replay_never_stored (cs : List Call) (lastId : String)
    (h : lastId ∉ idsOf cs ∨ lastId = "") :
    replayEventsAfter (buildStore cs) lastId = ("", []) := by
  rcases h with h | rfl
  · have hhas : assocHas (buildStore cs).events lastId = false := by
      rw [assocHas_eq_false]
      intro hmem
      exact h (buildStore_keys_subset cs hmem)
    simp [replayEventsAfter, hhas]
  · simp [replayEventsAfter]

/-- C9 witness: a concrete store queried with an identifier never generated. -/
theorem c9_replay_never_stored_witness :
    replayEventsAfter (buildStore [⟨"s", 1, 2, "r"⟩]) "zz" = ("", []) :=
  c9_replay_never_stored [⟨"s", 1, 2, "r"⟩] "zz" (Or.inl (by decide))

/-! ## Claim C7: bounded retention, oldest evicted first -/

/-- The 1001st store with distinct identifiers drops exactly the oldest
entry. -/
theorem buildStore_evict_one (c0 : Call) (rest : List Call)
    (hnd : (idsOf (c0 :: rest)).Nodup) (hlen : rest.length = 1000) :
    (buildStore (c0 :: rest)).events = rest.map callEntry := by
  obtain ⟨rest', clast, rfl⟩ : ∃ rest' clast, rest = rest' ++ [clast] := by
    rcases List.eq_nil_or_concat rest with h | ⟨r', a, h⟩
    · rw [h] at hlen
      simp at hlen
    · exact ⟨r', a, by rw [h, List.concat_eq_append]⟩
  have hlen' : rest'.length = 999 := by
    have : (rest' ++ [clast]).length = rest'.length + 1 := by simp
    omega
  have hids : idsOf (c0 :: (rest' ++ [clast])) =
      idsOf (c0 :: rest') ++ [callId clast] := by
    simp [idsOf]
  rw [hids] at hnd
  have hnd1 : (idsOf (c0 :: rest')).Nodup := (List.nodup_append.mp hnd).1
  have hfresh : callId clast ∉ idsOf (c0 :: rest') := by
    intro hmem
    exact (List.nodup_append.mp hnd).2.2 hmem (List.mem_singleton.mpr rfl)
  have hpre : (foldStore ⟨[]⟩ (c0 :: rest')).events = (c0 :: rest').map callEntry := by
    have h := foldStore_no_evict (c0 :: rest') ⟨[]⟩ (by simpa using hnd1)
      (by simp [hlen'])
    simpa using h
  have hsplit : buildStore (c0 :: (rest' ++ [clast])) =
      foldStore (foldStore ⟨[]⟩ (c0 :: rest')) [clast] := by
    rw [buildStore]
    show foldStore ⟨[]⟩ ((c0 :: rest') ++ [clast]) = _
    simp [foldStore, List.foldl_append]
  rw [hsplit]
  have hfresh' : callId clast ∉
      (foldStore ⟨[]⟩ (c0 :: rest')).events.map Prod.fst := by
    rw [hpre, keys_map_callEntry]
    exact hfresh
  have hlen1000 : (foldStore ⟨[]⟩ (c0 :: rest')).events.length = 1000 := by
    rw [hpre]
    simp [hlen']
  show (storeEvent _ clast.streamId clast.message clast.now clast.rand).2.events = _
  simp only [storeEvent]
  have hset : assocSet (foldStore ⟨[]⟩ (c0 :: rest')).events
      (mkEventId clast.streamId clast.now clast.rand) ⟨clast.streamId, clast.message⟩ =
      (foldStore ⟨[]⟩ (c0 :: rest')).events ++ [callEntry clast] :=
    assocSet_fresh _ _ _ hfresh'
  rw [hset]
  rw [if_pos]
  · rw [hpre]
    have hmlen : ((c0 :: rest').map callEntry).length = 1000 := by
      simp [hlen']
    have harg : (((c0 :: rest').map callEntry) ++ [callEntry clast]).length - 1000 = 1 := by
      simp only [List.length_append, List.length_singleton, hmlen]
    rw [harg]
    simp [List.map_append]
  · have h1 : ((foldStore ⟨[]⟩ (c0 :: rest')).events ++ [callEntry clast]).length = 1001 := by
      simp only [List.length_append, List.length_singleton, hlen1000]
    rw [h1]
    omega

/-- C7: the store keeps at most 1000 events; after 1000 stores followed by one
more (with pairwise distinct generated identifiers), the oldest stored event
is unreachable by id lookup and every later event remains reachable. -/
theorem c7_retention (c0 : Call) (rest : List Call)
    (hnd : (idsOf (c0 :: rest)).Nodup) (hlen : rest.length = 1000) :
    (∀ cs : List Call, (buildStore cs).events.length ≤ 1000) ∧
    assocHas (buildStore (c0 :: rest)).events (callId c0) = false ∧
    ∀ c ∈ rest, assocHas (buildStore (c0 :: rest)).events (callId c) = true := by
  refine ⟨buildStore_length_le, ?_, ?_⟩
  · rw [buildStore_evict_one c0 rest hnd hlen, assocHas_eq_false, keys_map_callEntry]
    have h2 : idsOf (c0 :: rest) = callId c0 :: idsOf rest := rfl
    rw [h2] at hnd
    exact (List.nodup_cons.mp hnd).1
  · intro c hc
    rw [buildStore_evict_one c0 rest hnd hlen, assocHas_eq_true, keys_map_callEntry]
    exact List.mem_map_of_mem callId hc

/-- Identifier lengths of the demo family grow with the index. -/
theorem demoCall_id_length (i : Nat) : (callId (demoCall i)).length = 4 + i := by
  have h1 : (String.mk (List.replicate i 'a')).length = i := by
    show (List.replicate i 'a').length = i
    simp
  have hs : ("s" : String).length = 1 := rfl
  have hu : ("_" : String).length = 1 := rfl
  have h0 : (toString (0 : Nat)).length = 1 := rfl
  simp only [callId, demoCall, mkEventId, String.length_append, h1, hs, hu, h0]

/-- The demo identifiers are pairwise distinct. -/
theorem demoCall_id_injective : Function.Injective fun i => callId (demoCall i) := by
  intro i j h
  have hl := congrArg String.length h
  simp only [demoCall_id_length] at hl
  omega

/-- The identifier list of the demo call sequence has no duplicates. -/
theorem demoCalls_ids_nodup : (idsOf demoCalls).Nodup := by
  rw [idsOf, demoCalls, List.map_map]
  exact List.Nodup.map (by simpa [Function.comp] using demoCall_id_injective)
    (List.nodup_range 1001)

/-- The demo sequence splits as its first call and the 1000 later ones. -/
theorem demoCalls_eq : demoCalls = demoCall 0 :: demoRest := by
  rw [demoCalls, demoRest, List.range_succ_eq_map]
  simp [List.map_map, Function.comp]

/-- C7 witness: in the concrete 1001-call run the first event is gone and the
second remains reachable. -/
theorem c7_retention_witness :
    assocHas (buildStore demoCalls).events (callId (demoCall 0)) = false ∧
    assocHas (buildStore demoCalls).events (callId (demoCall 1)) = true := by
  have hnd : (idsOf (demoCall 0 :: demoRest)).Nodup := by
    rw [← demoCalls_eq]
    exact demoCalls_ids_nodup
  have h := c7_retention (demoCall 0) demoRest hnd (by simp [demoRest])
  rw [demoCalls_eq]
  refine ⟨h.2.1, h.2.2 (demoCall 1) ?_⟩
  rw [demoRest]
  exact List.mem_map.mpr ⟨0, by simp, rfl⟩

/-! ## Claim C3: unknown session id on POST -/

/-- C3 counterexample: a POST bearing the session header with the empty-string
value (an identifier not present in the empty registry) together with an
initialize body does NOT get the unknown-session error, and the registry is
changed by the request: JS truthiness makes the empty header value
indistinguishable from an absent header, so the initialization path runs. -/
theorem c3_counterexample :
    (handleMcpPost [] (some "") none (.one ⟨"initialize"⟩) "fresh" 5 7).2 ≠ [] ∧
    (handleMcpPost [] (some "") none (.one ⟨"initialize"⟩) "fresh" 5 7).1 =
      .initialized "fresh" := by
  constructor
  · decide
  · decide

/-- C3 (amended): for every POST bearing a NON-EMPTY session header value that
is not a key of the registry, the handler answers the structured 400 error
with code -32000 and the registry is returned unchanged (no session is
created under the client-supplied identifier, nor under any other). -/
theorem c3_unknown_session_rejected (reg : Registry) (hdr1 hdr2 : Option String)
    (body : JsBody) (newSid : String) (now : Int) (tid : Nat)
    (htruthy : truthy (getSessionId hdr1 hdr2) = true)
    (hmiss : assocHas reg (jsOrD (getSessionId hdr1 hdr2) "") = false) :
    handleMcpPost reg hdr1 hdr2 body newSid now tid =
      (.jsonError ⟨400, -32000, "Bad request - missing or invalid session", none⟩,
       reg) := by
  simp [handleMcpPost, htruthy, hmiss]

/-- C3 witness: the amended theorem at a concrete registry and request. -/
theorem c3_unknown_session_rejected_witness :
    handleMcpPost [("a", ⟨0, 0⟩)] (some "b") none (.one ⟨"initialize"⟩) "fresh" 5 7 =
      (.jsonError ⟨400, -32000, "Bad request - missing or invalid session", none⟩,
       [("a", ⟨0, 0⟩)]) :=
  c3_unknown_session_rejected [("a", ⟨0, 0⟩)] (some "b") none
    (.one ⟨"initialize"⟩) "fresh" 5 7 (by decide) (by decide)

/-! ## Claim C4: the generic /api/github proxy -/

/-- C4 counterexample: the handler builds its upstream `fetch` with no body
option, so an inbound request body is not forwarded. -/
theorem c4_counterexample :
    (buildUpstreamReq ⟨"POST", "/api/github/tasks", none, none, some "payload"⟩).body
        ≠ some "payload" ∧
    (buildUpstreamReq ⟨"POST", "/api/github/tasks", none, none, some "payload"⟩).body
        = none := by
  constructor
  · decide
  · decide

/-- C4 (amended): the proxy forwards the method, targets the fixed upstream
host at the original URL, sends the API key from the query parameter or the
custom header (empty string when neither), and forwards the upstream status
and body verbatim together with a nonempty upstream content type; the inbound
request body, however, is never forwarded. -/
theorem c4_proxy_forwarding (r : ProxyReq) (u : UpstreamResp) (ct : String)
    (hct : u.contentType = some ct) (hne : ct ≠ "") :
    (buildUpstreamReq r).url = TARGET ++ r.originalUrl ∧
    (buildUpstreamReq r).method = r.method ∧
    (buildUpstreamReq r).xApiKey = jsOrD (jsOr r.queryApiKey r.headerApiKey) "" ∧
    (buildUpstreamReq r).body = none ∧
    forwardResp u = ⟨u.status, ct, u.body⟩ := by
  refine ⟨rfl, rfl, rfl, rfl, ?_⟩
  simp [forwardResp, jsOrD, hct, hne]

/-- C4 witness: the amended theorem at a concrete request and response. -/
theorem c4_proxy_forwarding_witness :
    (buildUpstreamReq ⟨"PUT", "/api/github/tasks/1", some "k", none, some "b"⟩).url
        = TARGET ++ "/api/github/tasks/1" ∧
    (buildUpstreamReq ⟨"PUT", "/api/github/tasks/1", some "k", none, some "b"⟩).method
        = "PUT" ∧
    (buildUpstreamReq ⟨"PUT", "/api/github/tasks/1", some "k", none, some "b"⟩).xApiKey
        = jsOrD (jsOr (some "k") none) "" ∧
    (buildUpstreamReq ⟨"PUT", "/api/github/tasks/1", some "k", none, some "b"⟩).body
        = none ∧
    forwardResp ⟨404, some "text/plain", "nope"⟩ = ⟨404, "text/plain", "nope"⟩ :=
  c4_proxy_forwarding ⟨"PUT", "/api/github/tasks/1", some "k", none, some "b"⟩
    ⟨404, some "text/plain", "nope"⟩ "text/plain" rfl (by decide)

/-! ## Claim C10: API key precedence in the proxy -/

/-- C10 counterexample: with both sources supplied but the query parameter
empty, the header value wins (JS falsiness of the empty string), so the query
parameter does not always take precedence when both are supplied. -/
theorem c10_counterexample :
    (buildUpstreamReq ⟨"GET", "/api/github/x", some "", some "hkey", none⟩).xApiKey
        = "hkey" ∧
    ("hkey" : String) ≠ "" := by
  constructor
  · decide
  · decide

/-- C10 (amended): a nonempty query parameter takes precedence over the
header; when neither source is truthy (absent or empty), the upstream request
still carries an `x-api-key` header whose value is the empty string. -/
theorem c10_api_key_precedence (m u : String) (q h b : Option String) (s : String) :
    ((q = some s ∧ s ≠ "") → (buildUpstreamReq ⟨m, u, q, h, b⟩).xApiKey = s) ∧
    ((truthy q = false ∧ truthy h = false) →
      (buildUpstreamReq ⟨m, u, q, h, b⟩).xApiKey = "") := by
  constructor
  · rintro ⟨rfl, hs⟩
    simp [buildUpstreamReq, jsOr, jsOrD, hs]
  · rintro ⟨hq, hh⟩
    match q, h with
    | none, none => simp [buildUpstreamReq, jsOr, jsOrD]
    | none, some t =>
        have ht : t = "" := by simpa [truthy] using hh
        simp [buildUpstreamReq, jsOr, jsOrD, ht]
    | some t, none =>
        have ht : t = "" := by simpa [truthy] using hq
        simp [buildUpstreamReq, jsOr, jsOrD, ht]
    | some t, some t' =>
        have ht : t = "" := by simpa [truthy] using hq
        have ht' : t' = "" := by simpa [truthy] using hh
        simp [buildUpstreamReq, jsOr, jsOrD, ht, ht']

/-- C10 witness: both parts of the amended theorem at concrete requests. -/
theorem c10_api_key_precedence_witness :
    (buildUpstreamReq ⟨"GET", "/api/github/x", some "qk", some "hk", none⟩).xApiKey
        = "qk" ∧
    (buildUpstreamReq ⟨"GET", "/api/github/x", none, none, none⟩).xApiKey = "" :=
  ⟨(c10_api_key_precedence "GET" "/api/github/x" (some "qk") (some "hk") none "qk").1
      ⟨rfl, by decide⟩,
   (c10_api_key_precedence "GET" "/api/github/x" none none none "").2 ⟨rfl, rfl⟩⟩

/-! ## Claim C8: numeric error codes of the protocol failures -/

/-- C8 counterexample: the "bad request" variant (POST without a session) and
the "method not allowed" variant (sessionless GET) carry the SAME JSON-RPC
numeric code, -32000, so the three failure variants are not pairwise
distinguished by their numeric code. -/
theorem c8_counterexample :
    errCode (handleMcpPost [] none none (.one ⟨"x"⟩) "u" 0 0).1 =
      errCode (handleMcpGet [] none none).1 ∧
    errCode (handleMcpPost [] none none (.one ⟨"x"⟩) "u" 0 0).1 = -32000 := by
  constructor
  · decide
  · decide

/-- C8 (amended): in their failure branches the three handlers answer with
pairwise distinct HTTP statuses (400, 405, 404); the JSON-RPC numeric code
distinguishes the DELETE "not found" variant (-32001) from the other two,
which both carry -32000 and are told apart only by HTTP status. -/
theorem c8_error_variants (reg : Registry) (hdr1 hdr2 : Option String)
    (body : JsBody) (newSid : String) (now : Int) (tid : Nat)
    (hno : (truthy (getSessionId hdr1 hdr2) &&
            assocHas reg (jsOrD (getSessionId hdr1 hdr2) "")) = false)
    (hni : (!(truthy (getSessionId hdr1 hdr2)) && isInitializeRequest body) = false) :
    (handleMcpPost reg hdr1 hdr2 body newSid now tid).1 =
      .jsonError ⟨400, -32000, "Bad request - missing or invalid session", none⟩ ∧
    (handleMcpGet reg hdr1 hdr2).1 =
      .jsonError ⟨405, -32000, "Method not allowed - use POST", some "POST, HEAD"⟩ ∧
    (handleMcpDelete reg hdr1 hdr2).1 =
      .jsonError ⟨404, -32001, "Session not found", none⟩ ∧
    (400 : Nat) ≠ 405 ∧ (400 : Nat) ≠ 404 ∧ (405 : Nat) ≠ 404 ∧
    (-32001 : Int) ≠ -32000 := by
  refine ⟨?_, ?_, ?_, by decide, by decide, by decide, by decide⟩
  · simp [handleMcpPost, hno, hni]
  · simp [handleMcpGet, hno]
  · simp [handleMcpDelete, hno]

/-- C8 witness: the amended theorem at a concrete sessionless request. -/
theorem c8_error_variants_witness :
    (handleMcpPost [] none none (.one ⟨"tools/call"⟩) "u" 0 0).1 =
      .jsonError ⟨400, -32000, "Bad request - missing or invalid session", none⟩ ∧
    (handleMcpGet [] none none).1 =
      .jsonError ⟨405, -32000, "Method not allowed - use POST", some "POST, HEAD"⟩ ∧
    (handleMcpDelete [] none none).1 =
      .jsonError ⟨404, -32001, "Session not found", none⟩ := by
  have h := c8_error_variants [] none none (.one ⟨"tools/call"⟩) "u" 0 0
    (by decide) (by decide)
  exact ⟨h.1, h.2.1, h.2.2.1⟩

/-! ## Claim C5: the sweep never tears the transport down -/

/-- C5: the cleanup sweep's only effects are registry deletions and log lines;
it never performs a transport teardown, although it does evict: at the
concrete failing input (one session created at 0, swept at minute 31) the
session is removed from the registry and the performed effects contain no
`closeTransport`. -/
theorem c5_sweep_never_closes_transport :
    (∀ (reg : Registry) (now : Int),
      ((sweepOnce reg now).2.all (fun a => !(isCloseAction a))) = true) ∧
    (sweepOnce [("abc", ⟨7, 0⟩)] (31 * 60 * 1000)).1 = [] ∧
    (sweepOnce [("abc", ⟨7, 0⟩)] (31 * 60 * 1000)).2 =
      [.deleteSession "abc", .log "[cleanup] Removed stale session: abc"] := by
  refine ⟨?_, by decide, by decide⟩
  intro reg now
  rw [List.all_eq_true]
  intro a ha
  simp only [sweepOnce, List.mem_flatMap] at ha
  obtain ⟨p, -, hp⟩ := ha
  simp only [List.mem_cons, List.mem_singleton] at hp
  rcases hp with rfl | rfl | h
  · rfl
  · rfl
  · cases h

/-! ## Claim C6: TTL semantics of the sweep -/

/-- C6: the sweep fires every 5 minutes with a 30 minute TTL, a session
survives the sweep exactly when `now - createdAt` does not exceed the TTL,
and concretely a session created at `t` is gone after a sweep at `t` plus 31
minutes and still present after a sweep at `t` plus 29 minutes. -/
theorem c6_sweep_evicts_iff_expired :
    sessionTtlMs = 1800000 ∧ sweepIntervalMs = 300000 ∧
    (∀ (reg : Registry) (now : Int) (p : String × SessionEntry),
      p ∈ (sweepOnce reg now).1 ↔ p ∈ reg ∧ now - p.2.createdAt ≤ sessionTtlMs) ∧
    (∀ (t : Int) (id : String) (tid : Nat),
      (id, ⟨tid, t⟩) ∉ (sweepOnce [(id, ⟨tid, t⟩)] (t + 31 * 60 * 1000)).1 ∧
      (id, ⟨tid, t⟩) ∈ (sweepOnce [(id, ⟨tid, t⟩)] (t + 29 * 60 * 1000)).1) := by
  refine ⟨rfl, rfl, ?_, ?_⟩
  · intro reg now p
    simp [sweepOnce, List.mem_filter, not_lt]
  · intro t id tid
    constructor
    · intro h
      simp [sweepOnce, List.mem_filter, not_lt, sessionTtlMs] at h
    · simp [sweepOnce, List.mem_filter, not_lt, sessionTtlMs]

/-- C6 witness: both concrete boundary instances of the theorem at time 0. -/
theorem c6_sweep_evicts_iff_expired_witness :
    ("x", (⟨3, 0⟩ : SessionEntry)) ∉
      (sweepOnce [("x", ⟨3, 0⟩)] ((0 : Int) + 31 * 60 * 1000)).1 ∧
    ("x", (⟨3, 0⟩ : SessionEntry)) ∈
      (sweepOnce [("x", ⟨3, 0⟩)] ((0 : Int) + 29 * 60 * 1000)).1 :=
  c6_sweep_evicts_iff_expired.2.2.2 0 "x" 3

/-! ## Lexicographic order lemmas -/

/-- The code-unit comparison is irreflexive. -/
theorem lexLt_irrefl (l : List Char) : lexLt l l = false := by
  induction l with
  | nil => rfl
  | cons a as ih => simp [lexLt, lt_irrefl, ih]

/-- The code-unit comparison is asymmetric. -/
theorem lexLt_asymm {l₁ l₂ : List Char} (h : lexLt l₁ l₂ = true) :
    lexLt l₂ l₁ = false := by
  induction l₁ generalizing l₂ with
  | nil =>
    cases l₂ with
    | nil => simp [lexLt] at h
    | cons b bs => rfl
  | cons a as ih =>
    cases l₂ with
    | nil => simp [lexLt] at h
    | cons b bs =>
      by_cases hab : a < b
      · have hba : ¬ b < a := asymm hab
        simp [lexLt, hba, hab]
      · by_cases hba : b < a
        · simp [lexLt, hab, hba] at h
        · simp only [lexLt, if_neg hab, if_neg hba] at h
          simp only [lexLt, if_neg hba, if_neg hab]
          exact ih h

/-- The code-unit comparison is transitive. -/
theorem lexLt_trans {l₁ l₂ l₃ : List Char} (h₁ : lexLt l₁ l₂ = true)
    (h₂ : lexLt l₂ l₃ = true) : lexLt l₁ l₃ = true := by
  induction l₁ generalizing l₂ l₃ with
  | nil =>
    cases l₃ with
    | nil =>
      cases l₂ with
      | nil => exact h₂
      | cons b bs => simp [lexLt] at h₂
    | cons c cs => rfl
  | cons a as ih =>
    cases l₂ with
    | nil => simp [lexLt] at h₁
    | cons b bs =>
      cases l₃ with
      | nil => simp [lexLt] at h₂
      | cons c cs =>
        by_cases hab : a < b
        · by_cases hbc : b < c
          · have hac : a < c := lt_trans hab hbc
            simp [lexLt, hac]
          · by_cases hcb : c < b
            · simp [lexLt, hbc, hcb] at h₂
            · have hbc' : b = c := le_antisymm (not_lt.mp hcb) (not_lt.mp hbc)
              have hac : a < c := hbc' ▸ hab
              simp [lexLt, hac]
        · by_cases hba : b < a
          · simp [lexLt, hab, hba] at h₁
          · have hab' : a = b := le_antisymm (not_lt.mp hba) (not_lt.mp hab)
            subst hab'
            simp only [lexLt, if_neg hab, if_neg hba] at h₁
            by_cases hac : a < c
            · simp [lexLt, hac]
            · by_cases hca : c < a
              · simp [lexLt, hac, hca] at h₂
              · simp only [lexLt, if_neg hac, if_neg hca] at h₂ ⊢
                exact ih h₁ h₂

/-- Two lists neither of which precedes the other are equal. -/
theorem lexLt_connex {l₁ l₂ : List Char} (h₁ : lexLt l₁ l₂ = false)
    (h₂ : lexLt l₂ l₁ = false) : l₁ = l₂ := by
  induction l₁ generalizing l₂ with
  | nil =>
    cases l₂ with
    | nil => rfl
    | cons b bs => simp [lexLt] at h₁
  | cons a as ih =>
    cases l₂ with
    | nil => simp [lexLt] at h₂
    | cons b bs =>
      by_cases hab : a < b
      · simp [lexLt, hab] at h₁
      · by_cases hba : b < a
        · simp [lexLt, hba] at h₂
        · have hab' : a = b := le_antisymm (not_lt.mp hba) (not_lt.mp hab)
          subst hab'
          simp only [lexLt, if_neg hab, if_neg hba] at h₁ h₂
          rw [ih h₁ h₂]

/-- Strict string comparison is irreflexive. -/
theorem strLt_irrefl (s : String) : strLt s s = false := lexLt_irrefl s.data

/-- Strictly smaller strings are different. -/
theorem strLt_ne {a b : String} (h : strLt a b = true) : a ≠ b := by
  intro he
  subst he
  rw [strLt_irrefl] at h
  cases h

/-- Strict string comparison is asymmetric. -/
theorem strLt_asymm {a b : String} (h : strLt a b = true) : strLt b a = false :=
  lexLt_asymm h

/-- Strict string comparison is transitive. -/
theorem strLt_trans {a b c : String} (h₁ : strLt a b = true)
    (h₂ : strLt b c = true) : strLt a c = true :=
  lexLt_trans h₁ h₂

/-- Strings neither of which precedes the other are equal. -/
theorem strEq_of_not_lt {a b : String} (h₁ : strLt a b = false)
    (h₂ : strLt b a = false) : a = b := by
  have hd : a.data = b.data := lexLt_connex h₁ h₂
  calc a = String.mk a.data := rfl
    _ = String.mk b.data := by rw [hd]
    _ = b := rfl

/-- Weak string comparison is reflexive. -/
theorem strLe_refl (a : String) : strLe a a = true := by
  rw [strLe, strLt_irrefl]
  rfl

/-- Weak string comparison is transitive. -/
theorem strLe_trans {a b c : String} (h₁ : strLe a b = true)
    (h₂ : strLe b c = true) : strLe a c = true := by
  rw [strLe] at h₁ h₂ ⊢
  have hba : strLt b a = false := by
    cases hx : strLt b a with
    | false => rfl
    | true => rw [hx] at h₁; exact absurd h₁ (by simp)
  have hcb : strLt c b = false := by
    cases hx : strLt c b with
    | false => rfl
    | true => rw [hx] at h₂; exact absurd h₂ (by simp)
  have hca : strLt c a = false := by
    cases hx : strLt c a with
    | false => rfl
    | true =>
      cases hab : strLt a b with
      | false =>
        have hab' : a = b := strEq_of_not_lt hab hba
        subst hab'
        rw [hx] at hcb
        exact absurd hcb (by simp)
      | true =>
        have h3 := strLt_trans hx hab
        rw [h3] at hcb
        exact absurd hcb (by simp)
  rw [hca]
  rfl

/-- Failure of weak comparison one way gives it the other way. -/
theorem strLe_of_not_le {a b : String} (h : strLe a b = false) :
    strLe b a = true := by
  rw [strLe] at h ⊢
  cases hba : strLt b a with
  | false => rw [hba] at h; cases h
  | true => rw [strLt_asymm hba]; rfl

/-- Weakly smaller and different means strictly smaller. -/
theorem strLt_of_le_of_ne {a b : String} (hle : strLe a b = true)
    (hne : a ≠ b) : strLt a b = true := by
  rw [strLe] at hle
  cases hba : strLt b a with
  | true => rw [hba] at hle; cases hle
  | false =>
    cases hab : strLt a b with
    | true => rfl
    | false => exact absurd (strEq_of_not_lt hab hba) hne

/-! ## Stable sort lemmas -/

/-- Inserting permutes to consing. -/
theorem insertByKey_perm (x : String × EventEntry) (l : List (String × EventEntry)) :
    List.Perm (insertByKey x l) (x :: l) := by
  induction l with
  | nil => exact List.Perm.refl _
  | cons y ys ih =>
    rw [insertByKey]
    split
    · exact List.Perm.refl _
    · exact (ih.cons y).trans (List.Perm.swap x y ys)

/-- The sort permutes the input. -/
theorem sortByKey_perm (l : List (String × EventEntry)) :
    List.Perm (sortByKey l) l := by
  induction l with
  | nil => exact List.Perm.refl _
  | cons x xs ih => exact (insertByKey_perm x (sortByKey xs)).trans (ih.cons x)

/-- Inserting into a key-sorted list keeps it key-sorted. -/
theorem insertByKey_pairwise {x : String × EventEntry}
    {l : List (String × EventEntry)} (hl : l.Pairwise keyLe) :
    (insertByKey x l).Pairwise keyLe := by
  induction l with
  | nil => simp [insertByKey, keyLe]
  | cons y ys ih =>
    rw [insertByKey]
    split
    · rename_i hxy
      refine List.Pairwise.cons ?_ hl
      intro z hz
      rcases List.mem_cons.mp hz with rfl | hz'
      · exact hxy
      · have hyz : keyLe y z := (List.pairwise_cons.mp hl).1 z hz'
        exact strLe_trans hxy hyz
    · rename_i hxy
      have hyx : strLe y.1 x.1 = true :=
        strLe_of_not_le (Bool.eq_false_iff.mpr hxy)
      have hl' := List.pairwise_cons.mp hl
      refine List.Pairwise.cons ?_ (ih hl'.2)
      intro z hz
      have hz' := (insertByKey_perm x ys).mem_iff.mp hz
      rcases List.mem_cons.mp hz' with rfl | hz''
      · exact hyx
      · exact hl'.1 z hz''

/-- The sort output is key-sorted. -/
theorem sortByKey_pairwise (l : List (String × EventEntry)) :
    (sortByKey l).Pairwise keyLe := by
  induction l with
  | nil => exact List.Pairwise.nil
  | cons x xs ih => exact insertByKey_pairwise ih

/-- A weakly key-sorted list with distinct keys is strictly key-sorted. -/
theorem pairwise_keyLt_of_le_nodup {l : List (String × EventEntry)}
    (hle : l.Pairwise keyLe) (hnd : (l.map Prod.fst).Nodup) :
    l.Pairwise keyLt := by
  have hne : l.Pairwise (fun p q => p.1 ≠ q.1) := List.pairwise_map.mp hnd
  exact (hle.and hne).imp fun h => strLt_of_le_of_ne h.1 h.2

/-- Sorting does not change the subsequence of one stream, provided that
stream's keys already appear in strictly increasing order. -/
theorem filter_sortByKey_eq (l : List (String × EventEntry)) (S : String)
    (hmono : (l.filter (fun p => p.2.streamId == S)).Pairwise keyLt) :
    (sortByKey l).filter (fun p => p.2.streamId == S) =
      l.filter (fun p => p.2.streamId == S) := by
  have hperm : List.Perm ((sortByKey l).filter (fun p => p.2.streamId == S))
      (l.filter (fun p => p.2.streamId == S)) :=
    (sortByKey_perm l).filter _
  have hsortedA : ((sortByKey l).filter (fun p => p.2.streamId == S)).Pairwise keyLe :=
    (sortByKey_pairwise l).sublist (List.filter_sublist _)
  have hndB : ((l.filter (fun p => p.2.streamId == S)).map Prod.fst).Nodup :=
    List.pairwise_map.mpr (hmono.imp fun h => strLt_ne h)
  have hndA : (((sortByKey l).filter (fun p => p.2.streamId == S)).map Prod.fst).Nodup :=
    ((hperm.map Prod.fst).nodup_iff).mpr hndB
  have hstrictA := pairwise_keyLt_of_le_nodup hsortedA hndA
  exact @List.eq_of_perm_of_sorted _ keyLt
    ⟨fun a b h₁ h₂ => absurd h₂ (by simp [keyLt, strLt_asymm h₁])⟩
    _ _ hperm hstrictA hmono

/-! ## Replay loop lemmas -/

/-- A loop step over an entry of another stream is skipped. -/
theorem replayLoop_cons_other {S L : String} {b : Bool} {eid : String}
    {e : EventEntry} {rest : List (String × EventEntry)}
    (h : (e.streamId == S) = false) :
    replayLoop S L b ((eid, e) :: rest) = replayLoop S L b rest := by
  simp [replayLoop, bne, h]

/-- A loop step over the requested identifier flips the found flag. -/
theorem replayLoop_cons_last {S L : String} {b : Bool} {e : EventEntry}
    {rest : List (String × EventEntry)} (hS : (e.streamId == S) = true) :
    replayLoop S L b ((L, e) :: rest) = replayLoop S L true rest := by
  simp [replayLoop, bne, hS]

/-- After the flag is set, a same-stream entry is emitted. -/
theorem replayLoop_cons_emit {S L eid : String} {e : EventEntry}
    {rest : List (String × EventEntry)} (hS : (e.streamId == S) = true)
    (hL : (eid == L) = false) :
    replayLoop S L true ((eid, e) :: rest) =
      (eid, e.message) :: replayLoop S L true rest := by
  simp [replayLoop, bne, hS, hL]

/-- Before the flag is set, a same-stream entry other than the requested one
is skipped. -/
theorem replayLoop_cons_skip {S L eid : String} {e : EventEntry}
    {rest : List (String × EventEntry)} (hS : (e.streamId == S) = true)
    (hL : (eid == L) = false) :
    replayLoop S L false ((eid, e) :: rest) = replayLoop S L false rest := by
  simp [replayLoop, bne, hS, hL]

/-- With the flag set and the requested identifier absent, the loop emits
every same-stream entry in order. -/
theorem replayLoop_emit_all (S L : String) (l : List (String × EventEntry))
    (h : ∀ p ∈ l, p.1 ≠ L) :
    replayLoop S L true l = (l.filter (fun p => p.2.streamId == S)).map
      (fun p => (p.1, p.2.message)) := by
  induction l with
  | nil => rfl
  | cons p rest ih =>
    obtain ⟨eid, e⟩ := p
    have hL : (eid == L) = false := by
      simpa using h (eid, e) (List.mem_cons_self _ _)
    have htail : ∀ q ∈ rest, q.1 ≠ L := fun q hq => h q (List.mem_cons_of_mem _ hq)
    cases hS : (e.streamId == S) with
    | true =>
      rw [replayLoop_cons_emit hS hL, ih htail]
      simp [List.filter_cons, hS]
    | false =>
      rw [replayLoop_cons_other hS, ih htail]
      simp [List.filter_cons, hS]

/-- Entries that never carry the requested identifier are skipped wholesale
while the flag is unset. -/
theorem replayLoop_skip_to (S L : String) (pre rest : List (String × EventEntry))
    (h : ∀ p ∈ pre, p.1 ≠ L) :
    replayLoop S L false (pre ++ rest) = replayLoop S L false rest := by
  induction pre with
  | nil => rfl
  | cons p pre ih =>
    obtain ⟨eid, e⟩ := p
    have hL : (eid == L) = false := by
      simpa using h (eid, e) (List.mem_cons_self _ _)
    have htail : ∀ q ∈ pre, q.1 ≠ L := fun q hq => h q (List.mem_cons_of_mem _ hq)
    rw [List.cons_append]
    cases hS : (e.streamId == S) with
    | true => rw [replayLoop_cons_skip hS hL]; exact ih htail
    | false => rw [replayLoop_cons_other hS]; exact ih htail

/-- The loop ignores entries of other streams entirely. -/
theorem replayLoop_filter (S L : String) (b : Bool)
    (l : List (String × EventEntry)) :
    replayLoop S L b l =
      replayLoop S L b (l.filter (fun p => p.2.streamId == S)) := by
  induction l generalizing b with
  | nil => rfl
  | cons p rest ih =>
    obtain ⟨eid, e⟩ := p
    cases hS : (e.streamId == S) with
    | false =>
      rw [replayLoop_cons_other hS]
      rw [List.filter_cons]
      rw [if_neg (by simp [hS])]
      exact ih b
    | true =>
      rw [List.filter_cons, if_pos (by simp [hS])]
      by_cases hL : eid = L
      · subst hL
        rw [replayLoop_cons_last hS, replayLoop_cons_last hS]
        exact ih true
      · have hLb : (eid == L) = false := by simp [hL]
        cases b with
        | false =>
          rw [replayLoop_cons_skip hS hLb, replayLoop_cons_skip hS hLb]
          exact ih false
        | true =>
          rw [replayLoop_cons_emit hS hLb, replayLoop_cons_emit hS hLb]
          rw [ih true]

/-- Filtering a stream commutes with building the Map entries. -/
theorem filter_map_callEntry (l : List Call) (S : String) :
    (l.map callEntry).filter (fun p => p.2.streamId == S) =
      (l.filter (fun d => d.streamId == S)).map callEntry := by
  induction l with
  | nil => rfl
  | cons c cs ih =>
    rw [List.map_cons, List.filter_cons, List.filter_cons]
    cases h : (c.streamId == S) with
    | true =>
      rw [if_pos (by simp [callEntry, h]), if_pos (by simp [h])]
      rw [List.map_cons, ih]
    | false =>
      rw [if_neg (by simp [callEntry, h]), if_neg (by simp [h])]
      exact ih

/-! ## Identifier shape lemmas -/

/-- The character data of a generated identifier. -/
theorem callId_data (c : Call) :
    (callId c).data = c.streamId.data ++
      '_' :: ((toString c.now).data ++ '_' :: c.rand.data) := by
  have hu : ("_" : String).data = ['_'] := rfl
  simp [callId, mkEventId, String.data_append, hu]

/-- A generated identifier is never the empty string. -/
theorem callId_ne_empty (c : Call) : callId c ≠ "" := by
  intro h
  have hd := congrArg String.data h
  rw [callId_data] at hd
  simp at hd

/-- Taking while a predicate holds stops at the first failing element. -/
theorem takeWhile_append_stop {p : Char → Bool} :
    ∀ (l₁ : List Char) (x : Char) (l₂ : List Char),
      (∀ a ∈ l₁, p a = true) → p x = false →
      (l₁ ++ x :: l₂).takeWhile p = l₁ := by
  intro l₁
  induction l₁ with
  | nil =>
    intro x l₂ _ hx
    simp [List.takeWhile_cons, hx]
  | cons a as ih =>
    intro x l₂ h hx
    have ha : p a = true := h a (List.mem_cons_self _ _)
    rw [List.cons_append, List.takeWhile_cons, ha]
    simp only [if_true]
    rw [ih x l₂ (fun b hb => h b (List.mem_cons_of_mem _ hb)) hx]

/-- The stream identifier recovered from a generated identifier is the owning
stream, provided the stream name is free of underscores. -/
theorem callId_recover (c : Call) (hus : ∀ ch ∈ c.streamId.data, ch ≠ '_') :
    String.mk ((callId c).data.takeWhile (fun ch => ch != '_')) = c.streamId := by
  rw [callId_data]
  rw [takeWhile_append_stop c.streamId.data '_' _ ?_ ?_]
  · intro a ha
    simpa using hus a ha
  · simp

/-- Unfolding of a replay whose identifier is present and well-formed. -/
theorem replayEventsAfter_found (st : EventStore) (L : String) (S : String)
    (hL : L ≠ "") (hhas : assocHas st.events L = true)
    (hrec : String.mk (L.data.takeWhile (fun ch => ch != '_')) = S)
    (hS : S ≠ "") :
    replayEventsAfter st L = (S, replayLoop S L false (sortByKey st.events)) := by
  rw [replayEventsAfter]
  rw [if_neg, hrec, if_neg hS]
  simp [hhas, hL]

/-! ## Claim C1: identifier order and replay exactness -/

/-- C1 counterexample: two events of the same stream stored in the same
millisecond can receive identifiers that are NOT strictly increasing (the
random suffix of the later event sorts first), and replay after the earlier
identifier then emits zero events even though a later event of the stream was
stored after it. -/
theorem c1_counterexample :
    strLt (callId ⟨"s", 10, 100, "b"⟩) (callId ⟨"s", 20, 100, "a"⟩) = false ∧
    replayEventsAfter (buildStore [⟨"s", 10, 100, "b"⟩, ⟨"s", 20, 100, "a"⟩])
      (callId ⟨"s", 10, 100, "b"⟩) = ("s", []) := by
  constructor
  · decide
  · decide

/-- C1 (amended): provided the generated identifiers are globally distinct,
the identifiers of stream S are strictly increasing in emission order (which
the code does not itself guarantee when two stores share a millisecond), no
eviction has occurred, and S is nonempty and free of underscores, then
`replayEventsAfter`, given any identifier returned for stream S, returns S and
emits exactly the events of stream S stored after that identifier, in
emission order, and zero events of any other stream. -/
theorem c1_replay_exact (pre post : List Call) (c : Call)
    (hnd : (idsOf (pre ++ c :: post)).Nodup)
    (hmono : (idsOf ((pre ++ c :: post).filter
        (fun d => d.streamId == c.streamId))).Pairwise
        (fun a b => strLt a b = true))
    (hlen : (pre ++ c :: post).length ≤ 1000)
    (hS : c.streamId ≠ "")
    (hus : ∀ ch ∈ c.streamId.data, ch ≠ '_') :
    replayEventsAfter (buildStore (pre ++ c :: post)) (callId c) =
      (c.streamId,
       (post.filter (fun d => d.streamId == c.streamId)).map
         (fun d => (callId d, d.message))) := by
  have hev : (buildStore (pre ++ c :: post)).events =
      (pre ++ c :: post).map callEntry := buildStore_no_evict _ hnd hlen
  have hmem : c ∈ pre ++ c :: post := by simp
  have hhas : assocHas (buildStore (pre ++ c :: post)).events (callId c) = true := by
    rw [hev, assocHas_eq_true, keys_map_callEntry]
    exact List.mem_map_of_mem callId hmem
  rw [replayEventsAfter_found _ _ c.streamId (callId_ne_empty c) hhas
    (callId_recover c hus) hS]
  refine congrArg _ ?_
  rw [hev]
  -- replace the sorted list's S-subsequence by the emission-order one
  have hfm : ((pre ++ c :: post).map callEntry).filter
      (fun p => p.2.streamId == c.streamId) =
      ((pre ++ c :: post).filter (fun d => d.streamId == c.streamId)).map
        callEntry := filter_map_callEntry _ _
  have hmono' : (((pre ++ c :: post).map callEntry).filter
      (fun p => p.2.streamId == c.streamId)).Pairwise keyLt := by
    rw [hfm]
    refine List.pairwise_map.mpr ?_
    have h1 := List.pairwise_map.mp hmono
    exact h1.imp fun h => h
  rw [replayLoop_filter c.streamId (callId c) false]
  rw [filter_sortByKey_eq _ _ hmono']
  rw [hfm]
  -- split the emission-order S-events around the call c
  have hparts : (idsOf (pre ++ c :: post)) =
      idsOf pre ++ callId c :: idsOf post := by
    simp [idsOf]
  rw [hparts] at hnd
  have hnotpre : ∀ x ∈ idsOf pre, x ≠ callId c := by
    intro x hx
    intro hxc
    exact (List.nodup_append.mp hnd).2.2 hx
      (hxc ▸ List.mem_cons_self _ _)
  have hnotpost : callId c ∉ idsOf post := by
    have h2 := (List.nodup_append.mp hnd).2.1
    exact (List.nodup_cons.mp h2).1
  have hfilter_split : (pre ++ c :: post).filter
      (fun d => d.streamId == c.streamId) =
      pre.filter (fun d => d.streamId == c.streamId) ++
        c :: post.filter (fun d => d.streamId == c.streamId) := by
    rw [List.filter_append]
    congr 1
    simp [List.filter_cons]
  rw [hfilter_split, List.map_append, List.map_cons]
  have hskip : ∀ p ∈ (pre.filter (fun d => d.streamId == c.streamId)).map callEntry,
      p.1 ≠ callId c := by
    intro p hp
    obtain ⟨d, hd, rfl⟩ := List.mem_map.mp hp
    have hdp : d ∈ pre := List.mem_of_mem_filter hd
    exact hnotpre (callId d) (List.mem_map_of_mem callId hdp)
  rw [replayLoop_skip_to _ _ _ _ hskip]
  have hcS : ((callEntry c).2.streamId == c.streamId) = true := by
    simp [callEntry]
  rw [show callEntry c = (callId c, (⟨c.streamId, c.message⟩ : EventEntry)) from rfl]
  rw [replayLoop_cons_last (by simp)]
  have hpost : ∀ p ∈ (post.filter (fun d => d.streamId == c.streamId)).map callEntry,
      p.1 ≠ callId c := by
    intro p hp
    obtain ⟨d, hd, rfl⟩ := List.mem_map.mp hp
    have hdp : d ∈ post := List.mem_of_mem_filter hd
    intro hdc
    exact hnotpost (hdc ▸ List.mem_map_of_mem callId hdp)
  rw [replayLoop_emit_all _ _ _ hpost]
  rw [filter_map_callEntry]
  rw [List.filter_filter]
  simp [List.map_map, Function.comp, callEntry]

/-- C1 witness: a five-event run over two interleaved streams with strictly
increasing timestamps; replay after the second event of stream s emits
exactly the one later s-event and skips the t-events. -/
theorem c1_replay_exact_witness :
    replayEventsAfter (buildStore [⟨"s", 10, 1, "r"⟩, ⟨"t", 20, 2, "r"⟩,
        ⟨"s", 30, 3, "r"⟩, ⟨"t", 40, 4, "r"⟩, ⟨"s", 50, 5, "r"⟩])
      (callId ⟨"s", 30, 3, "r"⟩) = ("s", [("s_5_r", 50)]) := by
  have h := c1_replay_exact [⟨"s", 10, 1, "r"⟩, ⟨"t", 20, 2, "r"⟩]
    [⟨"t", 40, 4, "r"⟩, ⟨"s", 50, 5, "r"⟩] ⟨"s", 30, 3, "r"⟩
    (by decide) (by decide) (by decide) (by decide) (by decide)
  exact h.trans (by decide)

end GithubProxy
